import Mathlib

/-!
Verification of the concurrent task-processing core of the finalCrudApi
service layer (service.go): the bounded analytics job queue with its
worker pool, and the fan-out/fan-in statistics aggregator.

The Go buffered channel `analyticsQueue chan int` (capacity 100) is
modelled as a `Chan`: a capacity, an ordered buffer of pending jobs and
a closed flag.  A send inside `select { case ch <- v: ... default: ... }`
is `trySendDefault`: on an open channel it buffers when there is room
(the send case fires) and falls to the default branch when the buffer is
full; on a closed channel a Go send panics, modelled as `none`.
A receive (`for v := range ch` in `analyticsWorker`) is `chanRecv`:
it takes the head of the buffer when one is present, ends the range loop
on a drained closed channel, and blocks otherwise.
-/

namespace FinalCrudApi

/-- A Go buffered channel of ints: fixed capacity, FIFO buffer, closed flag. -/
structure Chan where
  cap : Nat
  buf : List Int
  closed : Bool
deriving DecidableEq, Repr

/-- The non-blocking send `select { case ch <- v: ...; default: ... }`.
Returns `some (ch', true)` when the send case fires (job buffered),
`some (ch, false)` when the default branch runs (buffer full, job dropped),
and `none` for the run-time panic of a send on a closed channel. -/
def trySendDefault (q : Chan) (v : Int) : Option (Chan × Bool) :=
  if q.closed then
    none
  else if q.buf.length < q.cap then
    some ({ q with buf := q.buf ++ [v] }, true)
  else
    some (q, false)

/-- Outcome of one receive attempt by a worker ranging over the channel. -/
inductive RecvResult where
  | job (v : Int) (q : Chan)
  | exitLoop
  | block
deriving DecidableEq, Repr

/-- One receive step of `for userID := range s.analyticsQueue`:
take the buffered head if any; end the loop when the channel is closed
and drained; otherwise block waiting for a job. -/
def chanRecv (q : Chan) : RecvResult :=
  match q.buf with
  | v :: rest => .job v { q with buf := rest }
  | [] => if q.closed then .exitLoop else .block

/-- The service state relevant to the background-processing core:
the JWT secret (untouched by the queue operations) and the analytics
queue channel.  The repository handle is an external collaborator and
carries no state of its own here. -/
structure ServiceState where
  jwtSecret : String
  analyticsQueue : Chan
deriving DecidableEq, Repr

/-- Constructor `NewService`: the analytics queue is created as
`make(chan int, 100)` — open, empty, capacity 100. -/
def newService (secret : String) : ServiceState :=
  { jwtSecret := secret
    analyticsQueue := { cap := 100, buf := [], closed := false } }

/-- Method `ProcessUserAnalytics(userID)`: the non-blocking select-send of the
user id onto `s.analyticsQueue`.  The boolean records which select branch
ran (send case = accepted, default = queue full, job skipped); `none` is
the panic of a send on a closed channel. -/
def ProcessUserAnalytics (s : ServiceState) (userID : Int) :
    Option (ServiceState × Bool) :=
  match trySendDefault s.analyticsQueue userID with
  | none => none
  | some (q, b) => some ({ s with analyticsQueue := q }, b)

/-- Fold a sequence of `ProcessUserAnalytics` submissions over a channel,
collecting the acceptance booleans. -/
def submitAll (q : Chan) (jobs : List Int) : Option (Chan × List Bool) :=
  match jobs with
  | [] => some (q, [])
  | j :: rest =>
    match trySendDefault q j with
    | none => none
    | some (q', b) =>
      match submitAll q' rest with
      | none => none
      | some (q'', bs) => some (q'', b :: bs)

/-- Submitting onto an open channel keeps it open and never panics. -/
theorem trySendDefault_open (q : Chan) (v : Int) (ho : q.closed = false) :
    ∃ q' b, trySendDefault q v = some (q', b) ∧ q'.closed = false ∧
      q'.cap = q.cap := by
  unfold trySendDefault
  rw [ho]
  by_cases h : q.buf.length < q.cap
  · exact ⟨{ q with buf := q.buf ++ [v] }, true, by simp [h, ho], ho, rfl⟩
  · exact ⟨q, false, by simp [h, ho], ho, rfl⟩

/-- While every job fits under the capacity, every submission is accepted
and the jobs are buffered in order at the tail. -/
theorem submitAll_accepts (jobs : List Int) (q : Chan)
    (ho : q.closed = false) (h : q.buf.length + jobs.length ≤ q.cap) :
    submitAll q jobs =
      some ({ q with buf := q.buf ++ jobs }, List.replicate jobs.length true) := by
  induction jobs generalizing q with
  | nil => simp [submitAll]
  | cons j rest ih =>
    have hlt : q.buf.length < q.cap := by
      simp only [List.length_cons] at h; omega
    have hsend : trySendDefault q j = some ({ q with buf := q.buf ++ [j] }, true) := by
      simp [trySendDefault, ho, hlt]
    have hrec := ih { q with buf := q.buf ++ [j] } ho
      (by simp only [List.length_append, List.length_singleton]
          simp only [List.length_cons] at h; omega)
    simp only [submitAll, hsend, hrec, List.append_assoc, List.singleton_append,
      List.length_cons, List.replicate_succ]

/-- C1: job submission is a non-blocking try-enqueue reporting acceptance:
on the service's queue (capacity 100), 100 submissions with no draining
are all accepted and buffered in order; the 101st submission runs the
default branch (not accepted, job dropped, queue unchanged); a submission
while the queue holds fewer than 100 jobs is accepted with the job
buffered at the tail; and after one job is drained from the full queue
the next submission succeeds. -/
theorem submit_backpressure (jobs : List Int) (v : Int) (h100 : jobs.length = 100) :
    (submitAll (newService "secret").analyticsQueue jobs =
       some ({ cap := 100, buf := jobs, closed := false }, List.replicate 100 true)) ∧
    (trySendDefault { cap := 100, buf := jobs, closed := false } v =
       some ({ cap := 100, buf := jobs, closed := false }, false)) ∧
    (∀ u q', chanRecv { cap := 100, buf := jobs, closed := false } = .job u q' →
       trySendDefault q' v = some ({ q' with buf := q'.buf ++ [v] }, true)) ∧
    (∀ q : Chan, q.closed = false → q.cap = 100 → q.buf.length < 100 →
       trySendDefault q v = some ({ q with buf := q.buf ++ [v] }, true)) := by
  refine ⟨?_, ?_, ?_, ?_⟩
  · have h := submitAll_accepts jobs (newService "secret").analyticsQueue rfl
      (by simp [newService, h100])
    simpa [newService, h100] using h
  · simp [trySendDefault, h100]
  · intro u q' hrecv
    cases jobs with
    | nil => simp at h100
    | cons a rest =>
      simp only [chanRecv] at hrecv
      cases hrecv
      have hlt : rest.length < 100 := by
        simp only [List.length_cons] at h100; omega
      simp [trySendDefault, hlt]
  · intro q hcl hcap hlen
    simp [trySendDefault, hcl, hcap, hlen]

/-- Witness for `submit_backpressure` at 100 copies of job 0 and job 7. -/
theorem submit_backpressure_witness :
    (List.replicate 100 (0 : Int)).length = 100 ∧
    ((submitAll (newService "secret").analyticsQueue (List.replicate 100 (0 : Int)) =
       some ({ cap := 100, buf := List.replicate 100 (0 : Int), closed := false },
         List.replicate 100 true)) ∧
    (trySendDefault { cap := 100, buf := List.replicate 100 (0 : Int), closed := false } 7 =
       some ({ cap := 100, buf := List.replicate 100 (0 : Int), closed := false }, false)) ∧
    (∀ u q', chanRecv { cap := 100, buf := List.replicate 100 (0 : Int), closed := false } =
         .job u q' →
       trySendDefault q' 7 = some ({ q' with buf := q'.buf ++ [7] }, true)) ∧
    (∀ q : Chan, q.closed = false → q.cap = 100 → q.buf.length < 100 →
       trySendDefault q 7 = some ({ q with buf := q.buf ++ [7] }, true))) :=
  ⟨by simp, submit_backpressure (List.replicate 100 0) 7 (by simp)⟩

/-- C5 counterexample: on a closed queue, the select-send of
`ProcessUserAnalytics` panics (Go: send on a closed channel), modelled
as `none`; it does not report not-accepted. -/
theorem close_submit_cex :
    trySendDefault { cap := 100, buf := [], closed := true } 7 = none ∧
    trySendDefault { cap := 100, buf := [], closed := true } 7 ≠
      some ({ cap := 100, buf := [], closed := true }, false) := by
  constructor
  · rfl
  · intro h
    simp [trySendDefault] at h

/-- C5 amended: the service itself never closes the analytics queue; were
the channel closed, a worker's range loop drains the remaining buffered
jobs and exits once the buffer is empty, but a subsequent submission
panics (send on closed channel) instead of reporting not-accepted. -/
theorem close_shutdown_semantics (v : Int) (q : Chan) (hc : q.closed = true) :
    (q.buf = [] → chanRecv q = .exitLoop) ∧
    (∀ u rest, q.buf = u :: rest → chanRecv q = .job u { q with buf := rest }) ∧
    trySendDefault q v = none := by
  refine ⟨?_, ?_, ?_⟩
  · intro hbuf
    simp [chanRecv, hbuf, hc]
  · intro u rest hbuf
    simp [chanRecv, hbuf]
  · simp [trySendDefault, hc]

/-- Witness for `close_shutdown_semantics` on a closed queue holding job 3. -/
theorem close_shutdown_semantics_witness :
    ({ cap := 100, buf := [3], closed := true } : Chan).closed = true ∧
    ((({ cap := 100, buf := [3], closed := true } : Chan).buf = [] →
        chanRecv { cap := 100, buf := [3], closed := true } = .exitLoop) ∧
     (∀ u rest, ({ cap := 100, buf := [3], closed := true } : Chan).buf = u :: rest →
        chanRecv { cap := 100, buf := [3], closed := true } =
          .job u { cap := 100, buf := rest, closed := true }) ∧
     trySendDefault { cap := 100, buf := [3], closed := true } 7 = none) :=
  ⟨rfl, close_shutdown_semantics 7 { cap := 100, buf := [3], closed := true } rfl⟩

/-- C10: on an open queue, a rejected submission (queue at capacity) is a
pure no-op — `ProcessUserAnalytics` returns the service state unchanged —
while an accepted submission appends exactly the given user id at the
tail of the queue and changes nothing else. -/
theorem rejected_submit_noop (s : ServiceState) (v : Int)
    (ho : s.analyticsQueue.closed = false) :
    (s.analyticsQueue.buf.length < s.analyticsQueue.cap →
       ProcessUserAnalytics s v =
         some ({ s with analyticsQueue :=
           { s.analyticsQueue with buf := s.analyticsQueue.buf ++ [v] } }, true)) ∧
    (¬ s.analyticsQueue.buf.length < s.analyticsQueue.cap →
       ProcessUserAnalytics s v = some (s, false)) := by
  constructor
  · intro h
    simp [ProcessUserAnalytics, trySendDefault, ho, h]
  · intro h
    simp [ProcessUserAnalytics, trySendDefault, ho, h]

/-- Witness for `rejected_submit_noop` on a full capacity-2 queue. -/
theorem rejected_submit_noop_witness :
    ({ jwtSecret := "k", analyticsQueue := { cap := 2, buf := [1, 2], closed := false } } :
        ServiceState).analyticsQueue.closed = false ∧
    ((({ jwtSecret := "k", analyticsQueue := { cap := 2, buf := [1, 2], closed := false } } :
        ServiceState).analyticsQueue.buf.length <
      ({ jwtSecret := "k", analyticsQueue := { cap := 2, buf := [1, 2], closed := false } } :
        ServiceState).analyticsQueue.cap →
       ProcessUserAnalytics
         { jwtSecret := "k", analyticsQueue := { cap := 2, buf := [1, 2], closed := false } } 9 =
         some ({ jwtSecret := "k",
                 analyticsQueue := { cap := 2, buf := [1, 2, 9], closed := false } }, true)) ∧
    (¬ ({ jwtSecret := "k", analyticsQueue := { cap := 2, buf := [1, 2], closed := false } } :
        ServiceState).analyticsQueue.buf.length <
      ({ jwtSecret := "k", analyticsQueue := { cap := 2, buf := [1, 2], closed := false } } :
        ServiceState).analyticsQueue.cap →
       ProcessUserAnalytics
         { jwtSecret := "k", analyticsQueue := { cap := 2, buf := [1, 2], closed := false } } 9 =
         some ({ jwtSecret := "k",
                 analyticsQueue := { cap := 2, buf := [1, 2], closed := false } }, false))) :=
  ⟨rfl, rejected_submit_noop
    { jwtSecret := "k", analyticsQueue := { cap := 2, buf := [1, 2], closed := false } } 9 rfl⟩

/-! FIFO order: a trace of interleaved submissions and worker receives. -/

/-- One operation on the queue: a producer submission of a job id, or a
worker receive. -/
inductive QOp where
  | submit (v : Int)
  | recvOp
deriving DecidableEq, Repr

/-- Observed history of a run: current channel, the jobs accepted so far
in order, and the jobs dequeued so far in order. -/
structure TraceState where
  queue : Chan
  accepted : List Int
  dequeued : List Int
deriving DecidableEq, Repr

/-- One step of the history: a submission is the select-send of
`ProcessUserAnalytics` (on a closed channel the panic leaves the history
unmodelled, as the service never closes the queue); a receive is one
worker taking the head of the buffer. -/
def traceStep (st : TraceState) (op : QOp) : TraceState :=
  match op with
  | .submit v =>
    match trySendDefault st.queue v with
    | some (q, true) => { st with queue := q, accepted := st.accepted ++ [v] }
    | some (q, false) => { st with queue := q }
    | none => st
  | .recvOp =>
    match chanRecv st.queue with
    | .job v q => { st with queue := q, dequeued := st.dequeued ++ [v] }
    | _ => st

/-- Run a whole operation sequence from a starting history. -/
def runTrace (st : TraceState) (ops : List QOp) : TraceState :=
  ops.foldl traceStep st

/-- The empty history on the service's freshly created queue. -/
def initTrace : TraceState :=
  { queue := (newService "secret").analyticsQueue, accepted := [], dequeued := [] }

/-- Each step preserves the FIFO invariant: the dequeued history followed
by the current buffer is exactly the acceptance history, and the channel
stays open. -/
theorem traceStep_invariant (st : TraceState) (op : QOp)
    (hinv : st.dequeued ++ st.queue.buf = st.accepted)
    (ho : st.queue.closed = false) :
    (traceStep st op).dequeued ++ (traceStep st op).queue.buf =
      (traceStep st op).accepted ∧ (traceStep st op).queue.closed = false := by
  cases op with
  | submit v =>
    by_cases h : st.queue.buf.length < st.queue.cap
    · have hs : trySendDefault st.queue v =
          some ({ st.queue with buf := st.queue.buf ++ [v] }, true) := by
        simp [trySendDefault, ho, h]
      refine ⟨?_, ?_⟩ <;> simp [traceStep, hs, ← hinv, ho]
    · have hs : trySendDefault st.queue v = some (st.queue, false) := by
        simp [trySendDefault, ho, h]
      refine ⟨?_, ?_⟩ <;> simp [traceStep, hs, hinv, ho]
  | recvOp =>
    cases hbuf : st.queue.buf with
    | nil =>
      have hr : chanRecv st.queue = .block := by simp [chanRecv, hbuf, ho]
      refine ⟨?_, ?_⟩ <;> simp [traceStep, hr, hinv, ho]
    | cons v rest =>
      have hr : chanRecv st.queue = .job v { st.queue with buf := rest } := by
        simp [chanRecv, hbuf]
      rw [hbuf] at hinv
      refine ⟨?_, ?_⟩ <;> simp [traceStep, hr, ← hinv, ho]

/-- C7: FIFO among accepted jobs — along every interleaving of
submissions and receives from the fresh service queue, the sequence of
dequeued jobs followed by the jobs still buffered equals the sequence of
accepted jobs in acceptance order; rejected submissions leave no trace. -/
theorem queue_fifo_order (ops : List QOp) :
    (runTrace initTrace ops).dequeued ++ (runTrace initTrace ops).queue.buf =
      (runTrace initTrace ops).accepted := by
  have key : ∀ (l : List QOp) (st : TraceState),
      st.dequeued ++ st.queue.buf = st.accepted → st.queue.closed = false →
      (runTrace st l).dequeued ++ (runTrace st l).queue.buf =
        (runTrace st l).accepted ∧ (runTrace st l).queue.closed = false := by
    intro l
    induction l with
    | nil => intro st h1 h2; exact ⟨h1, h2⟩
    | cons op rest ih =>
      intro st h1 h2
      have hstep := traceStep_invariant st op h1 h2
      exact ih (traceStep st op) hstep.1 hstep.2
  exact (key ops initTrace (by simp [initTrace, newService]) rfl).1

/-! Worker pool: `startBackgroundWorkers` launches W workers, each
ranging over the shared channel; a channel receive removes the head of
the buffer and hands it to exactly the receiving worker. -/

/-- State of the pool: the shared channel and, per worker index, the list
of jobs that worker has processed, in processing order. -/
structure PoolState where
  queue : Chan
  processed : List (List Int)
deriving DecidableEq, Repr

/-- Worker `w` performs one iteration of `analyticsWorker`'s range loop:
it receives from the shared channel — atomically removing the buffer
head — and processes the job; on an empty open channel it blocks (no
state change). -/
def workerStep (st : PoolState) (w : Nat) : PoolState :=
  match chanRecv st.queue with
  | .job v q' =>
    { queue := q', processed := st.processed.set w ((st.processed.getD w []) ++ [v]) }
  | _ => st

/-- Run a schedule: the sequence of worker indices the scheduler lets
take the next buffered job. -/
def runPool (st : PoolState) (ws : List Nat) : PoolState :=
  ws.foldl workerStep st

/-- Pool as set up by `NewService`/`startBackgroundWorkers`: the
capacity-100 channel already holding the accepted jobs, and W workers,
none of which has processed anything yet. -/
def initPool (W : Nat) (jobs : List Int) : PoolState :=
  { queue := { cap := 100, buf := jobs, closed := false }
    processed := List.replicate W [] }

/-- A worker step consumes exactly the head of the buffer. -/
theorem workerStep_buf (st : PoolState) (w : Nat) :
    (workerStep st w).queue.buf = st.queue.buf.drop 1 := by
  unfold workerStep
  cases hbuf : st.queue.buf with
  | nil => cases hc : st.queue.closed <;> simp [chanRecv, hbuf, hc]
  | cons v rest => simp [chanRecv, hbuf]

/-- After a schedule of n steps the buffer has lost its first n jobs. -/
theorem runPool_buf (ws : List Nat) (st : PoolState) :
    (runPool st ws).queue.buf = st.queue.buf.drop ws.length := by
  induction ws generalizing st with
  | nil => simp [runPool]
  | cons w rest ih =>
    have h := ih (workerStep st w)
    simp only [runPool, List.foldl_cons] at h ⊢
    rw [h, workerStep_buf, List.drop_drop, List.length_cons, Nat.add_comm]

/-- Setting entry w of a list of lists to itself extended by one element
permutes the flattened contents by appending that element. -/
theorem flatten_set_append (l : List (List Int)) (w : Nat) (v : Int)
    (hw : w < l.length) :
    (l.set w ((l.getD w []) ++ [v])).flatten.Perm (l.flatten ++ [v]) := by
  induction l generalizing w with
  | nil => simp at hw
  | cons a t ih =>
    cases w with
    | zero =>
      simp only [List.set_cons_zero, List.getD_cons_zero, List.flatten_cons]
      rw [List.append_assoc, List.append_assoc]
      exact List.Perm.append_left a List.perm_append_comm
    | succ w' =>
      have hw' : w' < t.length := by simpa using hw
      simp only [List.set_cons_succ, List.getD_cons_succ, List.flatten_cons]
      rw [List.append_assoc]
      exact List.Perm.append_left a (ih w' hw')

/-- One worker step conserves the jobs: flattened processed lists plus
the remaining buffer form the same multiset before and after. -/
theorem workerStep_conserves (st : PoolState) (w : Nat)
    (hw : w < st.processed.length) :
    ((workerStep st w).processed.flatten ++ (workerStep st w).queue.buf).Perm
      (st.processed.flatten ++ st.queue.buf) ∧
    (workerStep st w).processed.length = st.processed.length := by
  unfold workerStep
  cases hbuf : st.queue.buf with
  | nil =>
    cases hc : st.queue.closed <;> simp [chanRecv, hbuf, hc, List.Perm.refl]
  | cons v rest =>
    simp only [chanRecv, hbuf]
    constructor
    · have h1 := (flatten_set_append st.processed w v hw).append_right rest
      have h2 : (st.processed.flatten ++ [v]) ++ rest =
          st.processed.flatten ++ (v :: rest) := by
        rw [List.append_assoc]; rfl
      rw [h2] at h1
      exact h1
    · simp [List.length_set]

/-- Running a whole schedule of in-range worker indices conserves jobs. -/
theorem runPool_conserves (ws : List Nat) (st : PoolState)
    (hws : ∀ w ∈ ws, w < st.processed.length) :
    ((runPool st ws).processed.flatten ++ (runPool st ws).queue.buf).Perm
      (st.processed.flatten ++ st.queue.buf) := by
  induction ws generalizing st with
  | nil => simp [runPool]
  | cons w rest ih =>
    have hw : w < st.processed.length := hws w (by simp)
    have hstep := workerStep_conserves st w hw
    have hrest : ∀ u ∈ rest, u < (workerStep st w).processed.length := by
      intro u hu; rw [hstep.2]; exact hws u (by simp [hu])
    have h := ih (workerStep st w) hrest
    simp only [runPool, List.foldl_cons] at h ⊢
    exact h.trans hstep.1

/-- C6: for every worker count W ≥ 1 and every schedule of at least as
many in-range worker turns as there are accepted jobs, the buffer drains
completely and the jobs processed across all workers are, as a multiset,
exactly the accepted jobs — each accepted job is processed by exactly one
worker, none twice, none lost. -/
theorem accepted_jobs_processed_exactly_once (W : Nat) (hW : 1 ≤ W)
    (jobs : List Int) (ws : List Nat) (hws : ∀ w ∈ ws, w < W)
    (hlen : jobs.length ≤ ws.length) :
    (runPool (initPool W jobs) ws).queue.buf = [] ∧
    ((runPool (initPool W jobs) ws).processed.flatten).Perm jobs := by
  have hbuf : (runPool (initPool W jobs) ws).queue.buf = [] := by
    rw [runPool_buf]
    simp only [initPool, List.drop_eq_nil_iff]
    exact hlen
  refine ⟨hbuf, ?_⟩
  have hcons := runPool_conserves ws (initPool W jobs) (by simpa [initPool] using hws)
  rw [hbuf] at hcons
  simpa [initPool] using hcons

/-- Witness for `accepted_jobs_processed_exactly_once`: two workers,
three accepted jobs, schedule worker 0, worker 1, worker 0. -/
theorem accepted_jobs_processed_exactly_once_witness :
    1 ≤ 2 ∧ (∀ w ∈ ([0, 1, 0] : List Nat), w < 2) ∧
    ([5, 6, 7] : List Int).length ≤ ([0, 1, 0] : List Nat).length ∧
    ((runPool (initPool 2 [5, 6, 7]) [0, 1, 0]).queue.buf = [] ∧
     ((runPool (initPool 2 [5, 6, 7]) [0, 1, 0]).processed.flatten).Perm [5, 6, 7]) :=
  ⟨by decide, by decide, by decide,
    accepted_jobs_processed_exactly_once 2 (by decide) [5, 6, 7] [0, 1, 0]
      (by decide) (by decide)⟩

/-! Aggregator: `GetUserStatistics` launches three branches (total-user
count, recent-user count, background-job metrics), each of which first
polls the shared 5-second context deadline and, under the shared mutex,
either appends its error or writes its own snapshot fields; after the
WaitGroup join the call fails when the error list is non-empty and
otherwise returns the snapshot. -/

/-- The `UserStatistics` snapshot struct, Go zero value `0` per field. -/
structure UserStatistics where
  totalUsers : Int
  recentUsers : Int
  processedToday : Int
  backgroundJobs : Int
deriving DecidableEq, Repr

/-- The zero-value snapshot `&UserStatistics{}` the run starts from. -/
def initStats : UserStatistics :=
  { totalUsers := 0, recentUsers := 0, processedToday := 0, backgroundJobs := 0 }

/-- The shared mutable state of one aggregation run: the snapshot under
construction and the append-only error list, both mutex-guarded. -/
structure AggState where
  stats : UserStatistics
  errors : List String
deriving DecidableEq, Repr

/-- Which branches observed `ctx.Done()` at their entry check (the
deadline poll is check-then-act, performed once per branch). -/
structure TimeoutObs where
  totalUsersDone : Bool
  recentUsersDone : Bool
  backgroundDone : Bool
deriving DecidableEq, Repr

/-- Error text of the total-users branch's deadline check. -/
def timeoutTotalMsg : String := "timeout getting total users"

/-- Error text of the recent-users branch's deadline check. -/
def timeoutRecentMsg : String := "timeout getting recent users"

/-- Error text of the background-job branch's deadline check. -/
def timeoutJobsMsg : String := "timeout getting background job stats"

/-- The single mutex-guarded mutation branch i performs on the shared
state: branch 0 records its timeout error, or its repository error, or
writes `TotalUsers` from `GetUserCount`; branch 1 records its timeout
error or writes `RecentUsers = 5` (simulated value); branch 2 records
its timeout error or writes `ProcessedToday = 42` (simulated value) and
`BackgroundJobs = len(analyticsQueue)`. -/
def runBranch (rc : Except String Int) (queueLen : Nat) (obs : TimeoutObs)
    (i : Fin 3) (st : AggState) : AggState :=
  if i = 0 then
    if obs.totalUsersDone then { st with errors := st.errors ++ [timeoutTotalMsg] }
    else
      match rc with
      | .error e => { st with errors := st.errors ++ [e] }
      | .ok n => { st with stats := { st.stats with totalUsers := n } }
  else if i = 1 then
    if obs.recentUsersDone then { st with errors := st.errors ++ [timeoutRecentMsg] }
    else { st with stats := { st.stats with recentUsers := 5 } }
  else
    if obs.backgroundDone then { st with errors := st.errors ++ [timeoutJobsMsg] }
    else
      { st with stats :=
          { st.stats with
              processedToday := 42
              backgroundJobs := (queueLen : Int) } }

/-- Method `GetUserStatistics`: the three branches run concurrently; since each
performs exactly one mutex-guarded mutation, a run is a serialization
`sched` of the three branch indices.  After the join, a non-empty error
list fails the call with all collected errors and no snapshot; otherwise
the populated snapshot is returned. -/
def GetUserStatistics (rc : Except String Int) (queueLen : Nat) (obs : TimeoutObs)
    (sched : List (Fin 3)) : Except (List String) UserStatistics :=
  let st := sched.foldl (fun s i => runBranch rc queueLen obs i s)
    { stats := initStats, errors := [] }
  if st.errors.length > 0 then .error st.errors else .ok st.stats

/-- The errors branch i contributes to the shared list. -/
def branchErrs (rc : Except String Int) (obs : TimeoutObs) (i : Fin 3) : List String :=
  if i = 0 then
    if obs.totalUsersDone then [timeoutTotalMsg]
    else match rc with | .error e => [e] | .ok _ => []
  else if i = 1 then
    if obs.recentUsersDone then [timeoutRecentMsg] else []
  else
    if obs.backgroundDone then [timeoutJobsMsg] else []

/-- The snapshot-field update branch i performs. -/
def branchStatsUpd (rc : Except String Int) (queueLen : Nat) (obs : TimeoutObs)
    (i : Fin 3) (stQ : UserStatistics) : UserStatistics :=
  if i = 0 then
    if obs.totalUsersDone then stQ
    else match rc with | .error _ => stQ | .ok n => { stQ with totalUsers := n }
  else if i = 1 then
    if obs.recentUsersDone then stQ else { stQ with recentUsers := 5 }
  else
    if obs.backgroundDone then stQ
    else { stQ with processedToday := 42, backgroundJobs := (queueLen : Int) }

/-- The branch failures in canonical branch order, as the specification
enumerates them. -/
def branchFailures (rc : Except String Int) (obs : TimeoutObs) : List String :=
  branchErrs rc obs 0 ++ branchErrs rc obs 1 ++ branchErrs rc obs 2

/-- Each branch action splits into its stats update and its appended
errors. -/
theorem runBranch_split (rc : Except String Int) (queueLen : Nat)
    (obs : TimeoutObs) (i : Fin 3) (st : AggState) :
    runBranch rc queueLen obs i st =
      { stats := branchStatsUpd rc queueLen obs i st.stats,
        errors := st.errors ++ branchErrs rc obs i } := by
  fin_cases i
  · cases h : obs.totalUsersDone
    · cases rc with
      | error e => simp [runBranch, branchErrs, branchStatsUpd, h]
      | ok n => simp [runBranch, branchErrs, branchStatsUpd, h]
    · simp [runBranch, branchErrs, branchStatsUpd, h]
  · cases h : obs.recentUsersDone <;> simp [runBranch, branchErrs, branchStatsUpd, h]
  · cases h : obs.backgroundDone <;> simp [runBranch, branchErrs, branchStatsUpd, h]

/-- A whole serialized run splits into the fold of the stats updates and
the concatenation, in schedule order, of the branch errors. -/
theorem runAgg_split (rc : Except String Int) (queueLen : Nat) (obs : TimeoutObs)
    (sched : List (Fin 3)) (st : AggState) :
    sched.foldl (fun s i => runBranch rc queueLen obs i s) st =
      { stats := sched.foldl (fun s i => branchStatsUpd rc queueLen obs i s) st.stats,
        errors := st.errors ++ sched.flatMap (branchErrs rc obs) } := by
  induction sched generalizing st with
  | nil => simp
  | cons i rest ih =>
    simp only [List.foldl_cons, List.flatMap_cons]
    rw [runBranch_split, ih]
    simp [List.append_assoc]

/-- Against any serialization of the three branches, the collected error
list is a permutation of the canonical branch-ordered failure list. -/
theorem agg_errs_perm (rc : Except String Int) (obs : TimeoutObs)
    (sched : List (Fin 3)) (hs : sched.Perm [0, 1, 2]) :
    (sched.flatMap (branchErrs rc obs)).Perm (branchFailures rc obs) := by
  have h := hs.flatMap_right (branchErrs rc obs)
  simpa [branchFailures, List.append_assoc] using h

/-- The six serializations of the three branches. -/
def allScheds : List (List (Fin 3)) :=
  [[0, 1, 2], [0, 2, 1], [1, 0, 2], [1, 2, 0], [2, 0, 1], [2, 1, 0]]

/-- A schedule is a permutation of the three branches exactly when it is
one of the six serializations. -/
theorem perm_iff_mem_allScheds (sched : List (Fin 3)) :
    sched.Perm [0, 1, 2] ↔ sched ∈ allScheds := by
  constructor
  · intro h
    have hlen : sched.length = 3 := by
      have := h.length_eq
      simpa using this
    obtain ⟨a, b, c, rfl⟩ := List.length_eq_three.mp hlen
    fin_cases a <;> fin_cases b <;> fin_cases c <;> revert h <;> decide
  · intro h
    simp only [allScheds, List.mem_cons, List.not_mem_nil, or_false] at h
    rcases h with rfl | rfl | rfl | rfl | rfl | rfl <;> decide

/-- When no branch fails, any serialization computes the same snapshot:
the repository count, the two simulated values, and the queue depth. -/
theorem agg_ok_of_no_failures (n : Int) (queueLen : Nat) (sched : List (Fin 3))
    (hs : sched.Perm [0, 1, 2]) :
    GetUserStatistics (.ok n) queueLen
      { totalUsersDone := false, recentUsersDone := false, backgroundDone := false }
      sched =
      .ok { totalUsers := n, recentUsers := 5, processedToday := 42,
            backgroundJobs := (queueLen : Int) } := by
  rw [perm_iff_mem_allScheds] at hs
  simp only [allScheds, List.mem_cons, List.not_mem_nil, or_false] at hs
  rcases hs with rfl | rfl | rfl | rfl | rfl | rfl <;> rfl

/-- Closed form of `GetUserStatistics`: it fails with the schedule-order
error concatenation when some branch contributed an error, and returns
the folded snapshot otherwise. -/
theorem GetUserStatistics_eq (rc : Except String Int) (queueLen : Nat)
    (obs : TimeoutObs) (sched : List (Fin 3)) :
    GetUserStatistics rc queueLen obs sched =
      if (sched.flatMap (branchErrs rc obs)).length > 0 then
        .error (sched.flatMap (branchErrs rc obs))
      else
        .ok (sched.foldl (fun s i => branchStatsUpd rc queueLen obs i s) initStats) := by
  unfold GetUserStatistics
  rw [runAgg_split]
  simp

/-- C2: when every branch completes within the deadline (no branch
observes `ctx.Done()`) and the repository count succeeds, every
serialization of the three branches returns the snapshot whose fields
are exactly the values the underlying sources expose: the repository's
user count, the simulated recent-users and processed-today sources, and
the analytics queue depth. -/
theorem stats_all_within_deadline (n : Int) (queueLen : Nat) (sched : List (Fin 3))
    (hs : sched.Perm [0, 1, 2]) :
    GetUserStatistics (.ok n) queueLen
      { totalUsersDone := false, recentUsersDone := false, backgroundDone := false }
      sched =
      .ok { totalUsers := n, recentUsers := 5, processedToday := 42,
            backgroundJobs := (queueLen : Int) } :=
  agg_ok_of_no_failures n queueLen sched hs

/-- Witness for `stats_all_within_deadline`: count 3, queue depth 2,
schedule 0,1,2. -/
theorem stats_all_within_deadline_witness :
    (([0, 1, 2] : List (Fin 3)).Perm [0, 1, 2]) ∧
    GetUserStatistics (.ok 3) 2
      { totalUsersDone := false, recentUsersDone := false, backgroundDone := false }
      [0, 1, 2] =
      .ok { totalUsers := 3, recentUsers := 5, processedToday := 42,
            backgroundJobs := 2 } :=
  ⟨by decide, stats_all_within_deadline 3 2 [0, 1, 2] (by decide)⟩

/-- C3: aggregation is all-or-nothing at the call boundary — whatever
the serialization, if no branch failed the call returns a snapshot, and
if any branch failed it returns an error list that is a permutation of
the canonical per-branch failure list (every failed branch enumerated)
and no snapshot. -/
theorem stats_all_or_nothing (rc : Except String Int) (queueLen : Nat)
    (obs : TimeoutObs) (sched : List (Fin 3)) (hs : sched.Perm [0, 1, 2]) :
    (branchFailures rc obs = [] →
      ∃ stQ, GetUserStatistics rc queueLen obs sched = .ok stQ) ∧
    (branchFailures rc obs ≠ [] →
      ∃ es, GetUserStatistics rc queueLen obs sched = .error es ∧
        es.Perm (branchFailures rc obs)) := by
  have hperm := agg_errs_perm rc obs sched hs
  constructor
  · intro hempty
    have hes : sched.flatMap (branchErrs rc obs) = [] :=
      List.Perm.eq_nil (hempty ▸ hperm)
    refine ⟨sched.foldl (fun s i => branchStatsUpd rc queueLen obs i s) initStats, ?_⟩
    rw [GetUserStatistics_eq, hes]
    simp
  · intro hne
    have hes : sched.flatMap (branchErrs rc obs) ≠ [] := by
      intro h
      exact hne (List.Perm.eq_nil (h ▸ hperm.symm))
    refine ⟨sched.flatMap (branchErrs rc obs), ?_, hperm⟩
    rw [GetUserStatistics_eq, if_pos (List.length_pos.mpr hes)]

/-- Witness for `stats_all_or_nothing`: total-users branch timed out,
schedule 2,1,0. -/
theorem stats_all_or_nothing_witness :
    (([2, 1, 0] : List (Fin 3)).Perm [0, 1, 2]) ∧
    ((branchFailures (.ok 1)
        { totalUsersDone := true, recentUsersDone := false, backgroundDone := false } = [] →
      ∃ stQ, GetUserStatistics (.ok 1) 0
        { totalUsersDone := true, recentUsersDone := false, backgroundDone := false }
        [2, 1, 0] = .ok stQ) ∧
    (branchFailures (.ok 1)
        { totalUsersDone := true, recentUsersDone := false, backgroundDone := false } ≠ [] →
      ∃ es, GetUserStatistics (.ok 1) 0
        { totalUsersDone := true, recentUsersDone := false, backgroundDone := false }
        [2, 1, 0] = .error es ∧
        es.Perm (branchFailures (.ok 1)
          { totalUsersDone := true, recentUsersDone := false, backgroundDone := false }))) :=
  ⟨by decide, stats_all_or_nothing (.ok 1) 0
    { totalUsersDone := true, recentUsersDone := false, backgroundDone := false }
    [2, 1, 0] (by decide)⟩

/-- C9: every successful call returns `RecentUsers = 5` and
`ProcessedToday = 42` (the simulated constants, independent of the data
sources), `BackgroundJobs` equal to the analytics queue depth its branch
saw, and `TotalUsers` equal to the repository's `GetUserCount` result,
which must have succeeded. -/
theorem stats_simulated_constants (rc : Except String Int) (queueLen : Nat)
    (obs : TimeoutObs) (sched : List (Fin 3)) (hs : sched.Perm [0, 1, 2])
    (stQ : UserStatistics)
    (hok : GetUserStatistics rc queueLen obs sched = .ok stQ) :
    stQ.recentUsers = 5 ∧ stQ.processedToday = 42 ∧
      stQ.backgroundJobs = (queueLen : Int) ∧
      ∃ n, rc = .ok n ∧ stQ.totalUsers = n := by
  have hok0 := hok
  rw [GetUserStatistics_eq] at hok
  by_cases hpos : (sched.flatMap (branchErrs rc obs)).length > 0
  · rw [if_pos hpos] at hok
    exact absurd hok (by simp)
  · have hes : sched.flatMap (branchErrs rc obs) = [] := by
      rcases h : sched.flatMap (branchErrs rc obs) with _ | ⟨a, t⟩
      · rfl
      · rw [h] at hpos; simp at hpos
    have hfail : branchFailures rc obs = [] :=
      List.Perm.eq_nil ((hes ▸ agg_errs_perm rc obs sched hs).symm)
    have hsplit : branchErrs rc obs 0 = [] ∧ branchErrs rc obs 1 = [] ∧
        branchErrs rc obs 2 = [] := by
      unfold branchFailures at hfail
      rcases List.append_eq_nil.mp hfail with ⟨h01, h2⟩
      rcases List.append_eq_nil.mp h01 with ⟨h0, h1⟩
      exact ⟨h0, h1, h2⟩
    obtain ⟨tU, rU, bU⟩ := obs
    cases tU with
    | true => simp [branchErrs] at hsplit
    | false =>
      cases rU with
      | true => simp [branchErrs] at hsplit
      | false =>
        cases bU with
        | true => simp [branchErrs] at hsplit
        | false =>
          cases rc with
          | error e => simp [branchErrs] at hsplit
          | ok n =>
            rw [agg_ok_of_no_failures n queueLen sched hs] at hok0
            injection hok0 with h
            rw [← h]
            exact ⟨rfl, rfl, rfl, n, rfl, rfl⟩

/-- Witness for `stats_simulated_constants`: a successful run with count
4 and queue depth 1, schedule 1,2,0. -/
theorem stats_simulated_constants_witness :
    (([1, 2, 0] : List (Fin 3)).Perm [0, 1, 2]) ∧
    GetUserStatistics (.ok 4) 1
      { totalUsersDone := false, recentUsersDone := false, backgroundDone := false }
      [1, 2, 0] =
      .ok { totalUsers := 4, recentUsers := 5, processedToday := 42,
            backgroundJobs := 1 } ∧
    (({ totalUsers := 4, recentUsers := 5, processedToday := 42,
        backgroundJobs := 1 } : UserStatistics).recentUsers = 5 ∧
     ({ totalUsers := 4, recentUsers := 5, processedToday := 42,
        backgroundJobs := 1 } : UserStatistics).processedToday = 42 ∧
     ({ totalUsers := 4, recentUsers := 5, processedToday := 42,
        backgroundJobs := 1 } : UserStatistics).backgroundJobs = ((1 : Nat) : Int) ∧
     ∃ n, (Except.ok 4 : Except String Int) = .ok n ∧
       ({ totalUsers := 4, recentUsers := 5, processedToday := 42,
          backgroundJobs := 1 } : UserStatistics).totalUsers = n) :=
  ⟨by decide, rfl,
    stats_simulated_constants (.ok 4) 1
      { totalUsersDone := false, recentUsersDone := false, backgroundDone := false }
      [1, 2, 0] (by decide) _ rfl⟩

/-- The deadline observation of branch i. -/
def timeoutFlag (obs : TimeoutObs) (i : Fin 3) : Bool :=
  if i = 0 then obs.totalUsersDone
  else if i = 1 then obs.recentUsersDone
  else obs.backgroundDone

/-- The timeout error text naming branch i. -/
def timeoutMsg (i : Fin 3) : String :=
  if i = 0 then timeoutTotalMsg
  else if i = 1 then timeoutRecentMsg
  else timeoutJobsMsg

/-- Branch i touched none of the snapshot fields owned by the other two
branches (branch 0 owns `TotalUsers`, branch 1 `RecentUsers`, branch 2
`ProcessedToday` and `BackgroundJobs`). -/
def writesOnlyOwn (i : Fin 3) (a b : UserStatistics) : Prop :=
  if i = 0 then
    b.recentUsers = a.recentUsers ∧ b.processedToday = a.processedToday ∧
      b.backgroundJobs = a.backgroundJobs
  else if i = 1 then
    b.totalUsers = a.totalUsers ∧ b.processedToday = a.processedToday ∧
      b.backgroundJobs = a.backgroundJobs
  else
    b.totalUsers = a.totalUsers ∧ b.recentUsers = a.recentUsers

/-- C4 counterexample: when the repository's `GetUserCount` fails with
"db down" and the deadline has not elapsed, the total-users branch
neither leaves the error list unchanged (it records the repository
error, so it did not "complete and write its portion") nor observed the
deadline — the claimed dichotomy misses the dependency-failure case. -/
theorem branch_outcome_cex :
    ¬ (((runBranch (.error "db down") 0
          { totalUsersDone := false, recentUsersDone := false, backgroundDone := false } 0
          { stats := initStats, errors := [] }).errors = ([] : List String)) ∨
       ({ totalUsersDone := false, recentUsersDone := false, backgroundDone := false } :
          TimeoutObs).totalUsersDone = true) := by
  decide

/-- C4 amended: every branch is atomic with respect to its own outcome —
it either records no error and writes only its own snapshot fields, or
appends exactly one error and writes no snapshot field at all (the
dependency-failure path of the total-users branch included); and a
branch that observed the elapsed deadline records exactly its own
timeout message and writes nothing. -/
theorem branch_outcome_atomic (rc : Except String Int) (queueLen : Nat)
    (obs : TimeoutObs) (i : Fin 3) (st : AggState) :
    (((runBranch rc queueLen obs i st).errors = st.errors ∧
        writesOnlyOwn i st.stats (runBranch rc queueLen obs i st).stats) ∨
      (∃ m, (runBranch rc queueLen obs i st).errors = st.errors ++ [m] ∧
        (runBranch rc queueLen obs i st).stats = st.stats)) ∧
    (timeoutFlag obs i = true →
      (runBranch rc queueLen obs i st).errors = st.errors ++ [timeoutMsg i] ∧
      (runBranch rc queueLen obs i st).stats = st.stats) := by
  fin_cases i
  · cases h : obs.totalUsersDone
    · cases rc with
      | error e =>
        refine ⟨Or.inr ⟨e, ?_, ?_⟩, ?_⟩ <;> simp [runBranch, timeoutFlag, h]
      | ok n =>
        refine ⟨Or.inl ⟨?_, ?_⟩, ?_⟩ <;>
          simp [runBranch, writesOnlyOwn, timeoutFlag, h]
    · refine ⟨Or.inr ⟨timeoutTotalMsg, ?_, ?_⟩, ?_⟩ <;>
        simp [runBranch, timeoutFlag, timeoutMsg, h]
  · cases h : obs.recentUsersDone
    · refine ⟨Or.inl ⟨?_, ?_⟩, ?_⟩ <;>
        simp [runBranch, writesOnlyOwn, timeoutFlag, h]
    · refine ⟨Or.inr ⟨timeoutRecentMsg, ?_, ?_⟩, ?_⟩ <;>
        simp [runBranch, timeoutFlag, timeoutMsg, h]
  · cases h : obs.backgroundDone
    · refine ⟨Or.inl ⟨?_, ?_⟩, ?_⟩ <;>
        simp [runBranch, writesOnlyOwn, timeoutFlag, h]
    · refine ⟨Or.inr ⟨timeoutJobsMsg, ?_, ?_⟩, ?_⟩ <;>
        simp [runBranch, timeoutFlag, timeoutMsg, h]

/-- Witness for `branch_outcome_atomic`: the recent-users branch with an
elapsed deadline, on the fresh shared state. -/
theorem branch_outcome_atomic_witness :
    (((runBranch (.ok 3) 2
          { totalUsersDone := false, recentUsersDone := true, backgroundDone := false } 1
          { stats := initStats, errors := [] }).errors = [] ∧
        writesOnlyOwn 1 initStats
          (runBranch (.ok 3) 2
            { totalUsersDone := false, recentUsersDone := true, backgroundDone := false } 1
            { stats := initStats, errors := [] }).stats) ∨
      (∃ m, (runBranch (.ok 3) 2
            { totalUsersDone := false, recentUsersDone := true, backgroundDone := false } 1
            { stats := initStats, errors := [] }).errors = [] ++ [m] ∧
        (runBranch (.ok 3) 2
            { totalUsersDone := false, recentUsersDone := true, backgroundDone := false } 1
            { stats := initStats, errors := [] }).stats = initStats)) ∧
    (timeoutFlag { totalUsersDone := false, recentUsersDone := true, backgroundDone := false }
        1 = true →
      (runBranch (.ok 3) 2
          { totalUsersDone := false, recentUsersDone := true, backgroundDone := false } 1
          { stats := initStats, errors := [] }).errors = [] ++ [timeoutMsg 1] ∧
      (runBranch (.ok 3) 2
          { totalUsersDone := false, recentUsersDone := true, backgroundDone := false } 1
          { stats := initStats, errors := [] }).stats = initStats) :=
  branch_outcome_atomic (.ok 3) 2
    { totalUsersDone := false, recentUsersDone := true, backgroundDone := false } 1
    { stats := initStats, errors := [] }

/-! Mutual exclusion of the merge: each aggregation branch's shared-state
accesses, as they appear in the source, form one critical section
`mu.Lock(); ...writes...; mu.Unlock()`; a run of `GetUserStatistics` is
an interleaving of the three branches' event sequences that respects the
mutex (acquire only when free, release only by the holder). -/

/-- A shared datum written during the merge: a snapshot field or the
error list. -/
inductive StatField where
  | totalUsers
  | recentUsers
  | processedToday
  | backgroundJobs
  | errorList
deriving DecidableEq, Repr, Fintype

/-- A lock-protocol event performed by branch b. -/
inductive LockEvent where
  | acquire (b : Fin 3)
  | release (b : Fin 3)
  | write (b : Fin 3) (f : StatField)
  | read (b : Fin 3) (f : StatField)
deriving DecidableEq, Repr, Fintype

/-- The branch owning each snapshot field; the error list is shared. -/
def fieldOwner : StatField → Option (Fin 3)
  | .totalUsers => some 0
  | .recentUsers => some 1
  | .processedToday => some 2
  | .backgroundJobs => some 2
  | .errorList => none

/-- The shared-state events branch i performs, read off its body:
every path is acquire, then its writes (the error append counts as a
write to the error list), then release; no path reads any snapshot
field. -/
def branchEvents (rc : Except String Int) (obs : TimeoutObs) (i : Fin 3) :
    List LockEvent :=
  if i = 0 then
    if obs.totalUsersDone then [.acquire 0, .write 0 .errorList, .release 0]
    else
      match rc with
      | .error _ => [.acquire 0, .write 0 .errorList, .release 0]
      | .ok _ => [.acquire 0, .write 0 .totalUsers, .release 0]
  else if i = 1 then
    if obs.recentUsersDone then [.acquire 1, .write 1 .errorList, .release 1]
    else [.acquire 1, .write 1 .recentUsers, .release 1]
  else
    if obs.backgroundDone then [.acquire 2, .write 2 .errorList, .release 2]
    else [.acquire 2, .write 2 .processedToday, .write 2 .backgroundJobs, .release 2]

/-- A trace t is an interleaving of the three branches' event lists. -/
inductive Interleave3 :
    List LockEvent → List LockEvent → List LockEvent → List LockEvent → Prop where
  | nil : Interleave3 [] [] [] []
  | cons0 {e t as bs cs} : Interleave3 t as bs cs → Interleave3 (e :: t) (e :: as) bs cs
  | cons1 {e t as bs cs} : Interleave3 t as bs cs → Interleave3 (e :: t) as (e :: bs) cs
  | cons2 {e t as bs cs} : Interleave3 t as bs cs → Interleave3 (e :: t) as bs (e :: cs)

/-- Mutex discipline: an acquire requires the lock free, a release
requires being the holder; h is the current holder. -/
def lockValidFrom : Option (Fin 3) → List LockEvent → Bool
  | _, [] => true
  | h, .acquire b :: t => if h = none then lockValidFrom (some b) t else false
  | h, .release b :: t => if h = some b then lockValidFrom none t else false
  | h, .write _ _ :: t => lockValidFrom h t
  | h, .read _ _ :: t => lockValidFrom h t

/-- Every write in the trace is performed by the current lock holder. -/
def writesHeld : Option (Fin 3) → List LockEvent → Bool
  | _, [] => true
  | _, .acquire b :: t => writesHeld (some b) t
  | _, .release _ :: t => writesHeld none t
  | h, .write b _ :: t => if h = some b then writesHeld h t else false
  | h, .read _ _ :: t => writesHeld h t

/-- Shape of one branch's remaining events: outside its critical section
(mode false) the next event is its own acquire; inside (mode true) it
writes as itself until its own release. -/
def shapeFrom (b : Fin 3) : Bool → List LockEvent → Bool
  | false, [] => true
  | false, .acquire b' :: t => if b' = b then shapeFrom b true t else false
  | false, _ => false
  | true, .write b' _ :: t => if b' = b then shapeFrom b true t else false
  | true, .release b' :: t => if b' = b then shapeFrom b false t else false
  | true, _ => false

/-- Shapes of the three branch suffixes given the current holder. -/
def suffixShapes (h : Option (Fin 3)) (as bs cs : List LockEvent) : Prop :=
  match h with
  | none =>
    shapeFrom 0 false as = true ∧ shapeFrom 1 false bs = true ∧
      shapeFrom 2 false cs = true
  | some b =>
    if b = 0 then
      shapeFrom 0 true as = true ∧ shapeFrom 1 false bs = true ∧
        shapeFrom 2 false cs = true
    else if b = 1 then
      shapeFrom 0 false as = true ∧ shapeFrom 1 true bs = true ∧
        shapeFrom 2 false cs = true
    else
      shapeFrom 0 false as = true ∧ shapeFrom 1 false bs = true ∧
        shapeFrom 2 true cs = true

/-- Outside its critical section, a branch's next event is its acquire. -/
theorem shapeFrom_false_cons (b : Fin 3) (e : LockEvent) (t : List LockEvent)
    (h : shapeFrom b false (e :: t) = true) :
    e = .acquire b ∧ shapeFrom b true t = true := by
  cases e with
  | acquire b' =>
    by_cases hbb : b' = b
    · subst hbb
      exact ⟨rfl, by simpa [shapeFrom] using h⟩
    · simp [shapeFrom, hbb] at h
  | release b' => simp [shapeFrom] at h
  | write b' f => simp [shapeFrom] at h
  | read b' f => simp [shapeFrom] at h

/-- Inside its critical section, a branch writes as itself or releases. -/
theorem shapeFrom_true_cons (b : Fin 3) (e : LockEvent) (t : List LockEvent)
    (h : shapeFrom b true (e :: t) = true) :
    (∃ f, e = .write b f ∧ shapeFrom b true t = true) ∨
    (e = .release b ∧ shapeFrom b false t = true) := by
  cases e with
  | acquire b' => simp [shapeFrom] at h
  | release b' =>
    by_cases hbb : b' = b
    · subst hbb
      exact Or.inr ⟨rfl, by simpa [shapeFrom] using h⟩
    · simp [shapeFrom, hbb] at h
  | write b' f =>
    by_cases hbb : b' = b
    · subst hbb
      exact Or.inl ⟨f, rfl, by simpa [shapeFrom] using h⟩
    · simp [shapeFrom, hbb] at h
  | read b' f => simp [shapeFrom] at h

/-- Fin 3 values are 0, 1 or 2. -/
theorem fin3_cases (b : Fin 3) : b = 0 ∨ b = 1 ∨ b = 2 := by
  obtain ⟨v, hv⟩ := b
  interval_cases v
  · exact Or.inl rfl
  · exact Or.inr (Or.inl rfl)
  · exact Or.inr (Or.inr rfl)

/-- Lock-validity forces mutual exclusion of the writes: along any
interleaving of three well-shaped branch suffixes that respects the
mutex, every write happens while its branch holds the lock. -/
theorem writesHeld_of_shapes (t as bs cs : List LockEvent)
    (hI : Interleave3 t as bs cs) :
    ∀ h : Option (Fin 3), suffixShapes h as bs cs →
      lockValidFrom h t = true → writesHeld h t = true := by
  induction hI with
  | nil => intro h _ _; rfl
  | @cons0 e t' as' bs' cs' hI' ih =>
    intro h hsh hlv
    rcases h with _ | hb
    · obtain ⟨h0, h1, h2⟩ := hsh
      obtain ⟨rfl, h0'⟩ := shapeFrom_false_cons 0 e as' h0
      simp only [lockValidFrom, reduceIte] at hlv
      simp only [writesHeld]
      refine ih (some 0) ?_ hlv
      simp [suffixShapes, h0', h1, h2]
    · rcases fin3_cases hb with rfl | rfl | rfl
      · simp only [suffixShapes, reduceIte] at hsh
        obtain ⟨h0, h1, h2⟩ := hsh
        rcases shapeFrom_true_cons 0 e as' h0 with ⟨f, rfl, h0'⟩ | ⟨rfl, h0'⟩
        · simp only [lockValidFrom] at hlv
          simp only [writesHeld, reduceIte]
          refine ih (some 0) ?_ hlv
          simp [suffixShapes, h0', h1, h2]
        · simp only [lockValidFrom, reduceIte] at hlv
          simp only [writesHeld]
          refine ih none ?_ hlv
          simp [suffixShapes, h0', h1, h2]
      · simp only [suffixShapes, reduceIte] at hsh
        obtain ⟨h0, h1, h2⟩ := hsh
        obtain ⟨rfl, h0'⟩ := shapeFrom_false_cons 0 e as' h0
        simp [lockValidFrom] at hlv
      · simp only [suffixShapes, reduceIte] at hsh
        obtain ⟨h0, h1, h2⟩ := hsh
        obtain ⟨rfl, h0'⟩ := shapeFrom_false_cons 0 e as' h0
        simp [lockValidFrom] at hlv
  | @cons1 e t' as' bs' cs' hI' ih =>
    intro h hsh hlv
    rcases h with _ | hb
    · obtain ⟨h0, h1, h2⟩ := hsh
      obtain ⟨rfl, h1'⟩ := shapeFrom_false_cons 1 e bs' h1
      simp only [lockValidFrom, reduceIte] at hlv
      simp only [writesHeld]
      refine ih (some 1) ?_ hlv
      simp [suffixShapes, h0, h1', h2]
    · rcases fin3_cases hb with rfl | rfl | rfl
      · simp only [suffixShapes, reduceIte] at hsh
        obtain ⟨h0, h1, h2⟩ := hsh
        obtain ⟨rfl, h1'⟩ := shapeFrom_false_cons 1 e bs' h1
        simp [lockValidFrom] at hlv
      · simp only [suffixShapes, reduceIte] at hsh
        obtain ⟨h0, h1, h2⟩ := hsh
        rcases shapeFrom_true_cons 1 e bs' h1 with ⟨f, rfl, h1'⟩ | ⟨rfl, h1'⟩
        · simp only [lockValidFrom] at hlv
          simp only [writesHeld, reduceIte]
          refine ih (some 1) ?_ hlv
          simp [suffixShapes, h0, h1', h2]
        · simp only [lockValidFrom, reduceIte] at hlv
          simp only [writesHeld]
          refine ih none ?_ hlv
          simp [suffixShapes, h0, h1', h2]
      · simp only [suffixShapes, reduceIte] at hsh
        obtain ⟨h0, h1, h2⟩ := hsh
        obtain ⟨rfl, h1'⟩ := shapeFrom_false_cons 1 e bs' h1
        simp [lockValidFrom] at hlv
  | @cons2 e t' as' bs' cs' hI' ih =>
    intro h hsh hlv
    rcases h with _ | hb
    · obtain ⟨h0, h1, h2⟩ := hsh
      obtain ⟨rfl, h2'⟩ := shapeFrom_false_cons 2 e cs' h2
      simp only [lockValidFrom, reduceIte] at hlv
      simp only [writesHeld]
      refine ih (some 2) ?_ hlv
      simp [suffixShapes, h0, h1, h2']
    · rcases fin3_cases hb with rfl | rfl | rfl
      · simp only [suffixShapes, reduceIte] at hsh
        obtain ⟨h0, h1, h2⟩ := hsh
        obtain ⟨rfl, h2'⟩ := shapeFrom_false_cons 2 e cs' h2
        simp [lockValidFrom] at hlv
      · simp only [suffixShapes, reduceIte] at hsh
        obtain ⟨h0, h1, h2⟩ := hsh
        obtain ⟨rfl, h2'⟩ := shapeFrom_false_cons 2 e cs' h2
        simp [lockValidFrom] at hlv
      · simp only [suffixShapes, reduceIte] at hsh
        obtain ⟨h0, h1, h2⟩ := hsh
        rcases shapeFrom_true_cons 2 e cs' h2 with ⟨f, rfl, h2'⟩ | ⟨rfl, h2'⟩
        · simp only [lockValidFrom] at hlv
          simp only [writesHeld, reduceIte]
          refine ih (some 2) ?_ hlv
          simp [suffixShapes, h0, h1, h2']
        · simp only [lockValidFrom, reduceIte] at hlv
          simp only [writesHeld]
          refine ih none ?_ hlv
          simp [suffixShapes, h0, h1, h2']

/-- Every event of an interleaving comes from one of the three parts. -/
theorem interleave_mem (t as bs cs : List LockEvent)
    (hI : Interleave3 t as bs cs) :
    ∀ e ∈ t, e ∈ as ∨ e ∈ bs ∨ e ∈ cs := by
  induction hI with
  | nil => intro e he; simp at he
  | @cons0 e' t' as' bs' cs' hI' ih =>
    intro e he
    rcases List.mem_cons.mp he with rfl | he'
    · exact Or.inl (List.mem_cons_self _ _)
    · rcases ih e he' with h | h | h
      · exact Or.inl (List.mem_cons_of_mem _ h)
      · exact Or.inr (Or.inl h)
      · exact Or.inr (Or.inr h)
  | @cons1 e' t' as' bs' cs' hI' ih =>
    intro e he
    rcases List.mem_cons.mp he with rfl | he'
    · exact Or.inr (Or.inl (List.mem_cons_self _ _))
    · rcases ih e he' with h | h | h
      · exact Or.inl h
      · exact Or.inr (Or.inl (List.mem_cons_of_mem _ h))
      · exact Or.inr (Or.inr h)
  | @cons2 e' t' as' bs' cs' hI' ih =>
    intro e he
    rcases List.mem_cons.mp he with rfl | he'
    · exact Or.inr (Or.inr (List.mem_cons_self _ _))
    · rcases ih e he' with h | h | h
      · exact Or.inl h
      · exact Or.inr (Or.inl h)
      · exact Or.inr (Or.inr (List.mem_cons_of_mem _ h))

/-- Each branch's event list is one well-bracketed critical section. -/
theorem branchEvents_shape (rc : Except String Int) (obs : TimeoutObs) (i : Fin 3) :
    shapeFrom i false (branchEvents rc obs i) = true := by
  obtain ⟨tU, rU, bU⟩ := obs
  rcases fin3_cases i with rfl | rfl | rfl <;> cases tU <;> cases rU <;> cases bU <;>
    cases rc <;> simp only [branchEvents] <;> decide

/-- Within its event list, a branch writes only as itself and only to
the error list or to snapshot fields it owns. -/
theorem branchEvents_write_owner (rc : Except String Int) (obs : TimeoutObs)
    (i : Fin 3) :
    ∀ b f o, LockEvent.write b f ∈ branchEvents rc obs i →
      fieldOwner f = some o → o = b := by
  obtain ⟨tU, rU, bU⟩ := obs
  rcases fin3_cases i with rfl | rfl | rfl <;> cases tU <;> cases rU <;> cases bU <;>
    cases rc <;> simp only [branchEvents] <;> decide

/-- No branch reads any shared datum during the merge. -/
theorem branchEvents_no_read (rc : Except String Int) (obs : TimeoutObs)
    (i : Fin 3) :
    ∀ b f, LockEvent.read b f ∉ branchEvents rc obs i := by
  obtain ⟨tU, rU, bU⟩ := obs
  rcases fin3_cases i with rfl | rfl | rfl <;> cases tU <;> cases rU <;> cases bU <;>
    cases rc <;> simp only [branchEvents] <;> decide

/-- C8: along every mutex-respecting interleaving of the three branches'
event sequences, every write to the shared snapshot or error list is
performed while the writing branch holds the lock (mutual exclusion, one
writer at a time), each snapshot field is written only by its owning
branch, and no branch reads any shared datum — so no branch sees another
branch's partial results. -/
theorem merge_mutual_exclusion (rc : Except String Int) (obs : TimeoutObs)
    (t : List LockEvent)
    (hI : Interleave3 t (branchEvents rc obs 0) (branchEvents rc obs 1)
      (branchEvents rc obs 2))
    (hlv : lockValidFrom none t = true) :
    writesHeld none t = true ∧
    (∀ b f o, LockEvent.write b f ∈ t → fieldOwner f = some o → o = b) ∧
    (∀ b f, LockEvent.read b f ∉ t) := by
  refine ⟨?_, ?_, ?_⟩
  · refine writesHeld_of_shapes _ _ _ _ hI none ?_ hlv
    exact ⟨branchEvents_shape rc obs 0, branchEvents_shape rc obs 1,
      branchEvents_shape rc obs 2⟩
  · intro b f o hmem howner
    rcases interleave_mem _ _ _ _ hI _ hmem with h | h | h
    · exact branchEvents_write_owner rc obs 0 b f o h howner
    · exact branchEvents_write_owner rc obs 1 b f o h howner
    · exact branchEvents_write_owner rc obs 2 b f o h howner
  · intro b f hmem
    rcases interleave_mem _ _ _ _ hI _ hmem with h | h | h
    · exact branchEvents_no_read rc obs 0 b f h
    · exact branchEvents_no_read rc obs 1 b f h
    · exact branchEvents_no_read rc obs 2 b f h

/-- Witness for `merge_mutual_exclusion`: the sequential serialization of
a fully successful run. -/
theorem merge_mutual_exclusion_witness :
    Interleave3
      [LockEvent.acquire 0, LockEvent.write 0 StatField.totalUsers,
       LockEvent.release 0, LockEvent.acquire 1,
       LockEvent.write 1 StatField.recentUsers, LockEvent.release 1,
       LockEvent.acquire 2, LockEvent.write 2 StatField.processedToday,
       LockEvent.write 2 StatField.backgroundJobs, LockEvent.release 2]
      [LockEvent.acquire 0, LockEvent.write 0 StatField.totalUsers,
       LockEvent.release 0]
      [LockEvent.acquire 1, LockEvent.write 1 StatField.recentUsers,
       LockEvent.release 1]
      [LockEvent.acquire 2, LockEvent.write 2 StatField.processedToday,
       LockEvent.write 2 StatField.backgroundJobs, LockEvent.release 2] ∧
    lockValidFrom none
      [LockEvent.acquire 0, LockEvent.write 0 StatField.totalUsers,
       LockEvent.release 0, LockEvent.acquire 1,
       LockEvent.write 1 StatField.recentUsers, LockEvent.release 1,
       LockEvent.acquire 2, LockEvent.write 2 StatField.processedToday,
       LockEvent.write 2 StatField.backgroundJobs, LockEvent.release 2] = true ∧
    (writesHeld none
      [LockEvent.acquire 0, LockEvent.write 0 StatField.totalUsers,
       LockEvent.release 0, LockEvent.acquire 1,
       LockEvent.write 1 StatField.recentUsers, LockEvent.release 1,
       LockEvent.acquire 2, LockEvent.write 2 StatField.processedToday,
       LockEvent.write 2 StatField.backgroundJobs, LockEvent.release 2] = true ∧
     (∀ b f o, LockEvent.write b f ∈
        [LockEvent.acquire 0, LockEvent.write 0 StatField.totalUsers,
         LockEvent.release 0, LockEvent.acquire 1,
         LockEvent.write 1 StatField.recentUsers, LockEvent.release 1,
         LockEvent.acquire 2, LockEvent.write 2 StatField.processedToday,
         LockEvent.write 2 StatField.backgroundJobs, LockEvent.release 2] →
        fieldOwner f = some o → o = b) ∧
     (∀ b f, LockEvent.read b f ∉
        [LockEvent.acquire 0, LockEvent.write 0 StatField.totalUsers,
         LockEvent.release 0, LockEvent.acquire 1,
         LockEvent.write 1 StatField.recentUsers, LockEvent.release 1,
         LockEvent.acquire 2, LockEvent.write 2 StatField.processedToday,
         LockEvent.write 2 StatField.backgroundJobs, LockEvent.release 2])) := by
  have hI : Interleave3
      [LockEvent.acquire 0, LockEvent.write 0 StatField.totalUsers,
       LockEvent.release 0, LockEvent.acquire 1,
       LockEvent.write 1 StatField.recentUsers, LockEvent.release 1,
       LockEvent.acquire 2, LockEvent.write 2 StatField.processedToday,
       LockEvent.write 2 StatField.backgroundJobs, LockEvent.release 2]
      [LockEvent.acquire 0, LockEvent.write 0 StatField.totalUsers,
       LockEvent.release 0]
      [LockEvent.acquire 1, LockEvent.write 1 StatField.recentUsers,
       LockEvent.release 1]
      [LockEvent.acquire 2, LockEvent.write 2 StatField.processedToday,
       LockEvent.write 2 StatField.backgroundJobs, LockEvent.release 2] := by
    repeat first
      | exact Interleave3.nil
      | apply Interleave3.cons0
      | apply Interleave3.cons1
      | apply Interleave3.cons2
  refine ⟨hI, by decide, ?_⟩
  exact merge_mutual_exclusion (.ok 3)
    { totalUsersDone := false, recentUsersDone := false, backgroundDone := false }
    _ hI (by decide)

end FinalCrudApi
